import Mathlib

/-!
Verification of the Connect-4 MCTS engine.

This file gives a shallow embedding of the game-rule engine
(`Connect4State` with `get_legal_moves`, `make_move`, `check_winner`,
`is_full`, `is_terminal`) and of the Monte Carlo tree search
(`MCTSNode`, UCB1 child selection, expansion, random playout,
backpropagation, robust-child final selection) from
`connect4_mcts.py`, together with the drifting backpropagation variant
found in `MCTS_Connect4/connect4_mcts.py`, and proves the specified
properties about them.

Modelling conventions:
* Python lists become Lean `List`s; `board[r][c]` becomes `cellAt`
  (out-of-range indices read as `EMPTY`, which the source never hits).
* In-place mutation becomes functional update; `make_move` returns its
  Python boolean result together with the successor state.
* Every call to `random.choice` is abstracted by an oracle stream
  `rand : Nat -> Nat`, consumed at an index that is threaded through the
  search; `random.choice(xs)` is read as `xs[rand k % len(xs)]`.  All
  theorems hold for every oracle.
* The float-valued UCB1 score comparison (argmax plus random
  tie-breaking) is likewise abstracted by one oracle draw; the embedding
  instead records, in an explicit trace, the
  `(parent_visit_count, child_visit_count)` operand pairs at which the
  source evaluates `math.log(self.visits)` and divides by
  `child.visits`, which is exactly what the safety claim about
  `select_child_uct` is about.  The float `ucb_score` display field of
  the statistics bundle is for the same reason not modelled.
* Rollout rewards are exact rationals (`0`, `1/2`, `1`).
-/

namespace Connect4

/-! ## Game constants -/

def ROWS : Nat := 6
def COLS : Nat := 7
def EMPTY : Nat := 0
def PLAYER1 : Nat := 1
def PLAYER2 : Nat := 2

abbrev Board := List (List Nat)

/-! ## Connect4State -/

structure Connect4State where
  board : Board
  current_player : Nat
deriving DecidableEq, Repr

def cellAt (b : Board) (r c : Nat) : Nat := (b.getD r []).getD c EMPTY

def setCell (b : Board) (r c v : Nat) : Board := b.set r ((b.getD r []).set c v)

def other_player (p : Nat) : Nat := if p = PLAYER2 then PLAYER1 else PLAYER2

def initialState : Connect4State :=
  ⟨List.replicate ROWS (List.replicate COLS EMPTY), PLAYER1⟩

def get_legal_moves (b : Board) : List Nat :=
  (List.range COLS).filter (fun c => cellAt b 0 c == EMPTY)

def dropRow (b : Board) (col : Nat) : Option Nat :=
  (List.range ROWS).reverse.find? (fun r => cellAt b r col == EMPTY)

def make_move (s : Connect4State) (col : Nat) : Bool × Connect4State :=
  match dropRow s.board col with
  | some r => (true, ⟨setCell s.board r col s.current_player, other_player s.current_player⟩)
  | none => (false, s)

def winHoriz (b : Board) : Option Nat :=
  (List.range ROWS).findSome? (fun r =>
    (List.range (COLS - 3)).findSome? (fun c =>
      let piece := cellAt b r c
      if piece ≠ EMPTY then
        if (List.range 4).all (fun i => cellAt b r (c + i) == piece) then some piece else none
      else none))

def winVert (b : Board) : Option Nat :=
  (List.range COLS).findSome? (fun c =>
    (List.range (ROWS - 3)).findSome? (fun r =>
      let piece := cellAt b r c
      if piece ≠ EMPTY then
        if (List.range 4).all (fun i => cellAt b (r + i) c == piece) then some piece else none
      else none))

def winDiagDR (b : Board) : Option Nat :=
  (List.range (ROWS - 3)).findSome? (fun r =>
    (List.range (COLS - 3)).findSome? (fun c =>
      let piece := cellAt b r c
      if piece ≠ EMPTY then
        if (List.range 4).all (fun i => cellAt b (r + i) (c + i) == piece) then some piece else none
      else none))

def winDiagUR (b : Board) : Option Nat :=
  (List.range (ROWS - 3)).findSome? (fun j =>
    (List.range (COLS - 3)).findSome? (fun c =>
      let piece := cellAt b (j + 3) c
      if piece ≠ EMPTY then
        if (List.range 4).all (fun i => cellAt b (j + 3 - i) (c + i) == piece) then some piece else none
      else none))

def check_winner (b : Board) : Option Nat :=
  match winHoriz b with
  | some p => some p
  | none =>
    match winVert b with
    | some p => some p
    | none =>
      match winDiagDR b with
      | some p => some p
      | none => winDiagUR b

def is_full (b : Board) : Bool :=
  (List.range COLS).all (fun c => cellAt b 0 c != EMPTY)

def is_terminal (s : Connect4State) : Bool :=
  (check_winner s.board).isSome || is_full s.board

/-! ## MCTS tree nodes

A node stores the game state, the move that created it, the visit and
win statistics and the untried moves, plus its (owned) children.  The
Python parent pointer is represented by the tree structure itself:
backpropagation runs on the access path from the root down to the
updated node, which is the reverse of the source's parent-link walk. -/

inductive MCTSNode : Type where
  | node (state : Connect4State) (move : Option Nat) (visits : Nat) (wins : ℚ)
      (untried_moves : List Nat) (children : List MCTSNode)

def MCTSNode.state : MCTSNode → Connect4State
  | .node s _ _ _ _ _ => s

def MCTSNode.move : MCTSNode → Option Nat
  | .node _ m _ _ _ _ => m

def MCTSNode.visits : MCTSNode → Nat
  | .node _ _ v _ _ _ => v

def MCTSNode.wins : MCTSNode → ℚ
  | .node _ _ _ w _ _ => w

def MCTSNode.untried_moves : MCTSNode → List Nat
  | .node _ _ _ _ u _ => u

def MCTSNode.children : MCTSNode → List MCTSNode
  | .node _ _ _ _ _ cs => cs

def defaultNode : MCTSNode := .node initialState none 0 0 [] []

instance : Inhabited MCTSNode := ⟨defaultNode⟩

/-- Node construction: `untried_moves = state.get_legal_moves() if not
state.is_terminal() else []`, zero statistics, no children. -/
def mkNode (s : Connect4State) (mv : Option Nat) : MCTSNode :=
  .node s mv 0 0 (if is_terminal s then [] else get_legal_moves s.board) []

/-- Update method: `self.visits += 1; self.wins += result`. -/
def MCTSNode.update : MCTSNode → ℚ → MCTSNode
  | .node s m v w u cs, r => .node s m (v + 1) (w + r) u cs

def setChildren : MCTSNode → List MCTSNode → MCTSNode
  | .node s m v w u _, cs => .node s m v w u cs

def setExpansion : MCTSNode → List Nat → List MCTSNode → MCTSNode
  | .node s m v w _ _, u, cs => .node s m v w u cs

/-! ## Backpropagation update rules -/

/-- The mover computation of `connect4_mcts.py`:
`player_who_moved = PLAYER1 if node.state.current_player == PLAYER2 else PLAYER2`. -/
def player_who_moved (n : MCTSNode) : Nat :=
  if n.state.current_player = PLAYER2 then PLAYER1 else PLAYER2

/-- Backpropagation loop body of `connect4_mcts.py` (the parent player
argument is ignored there; the mover is recomputed from the node's own
state at every node, including the root). -/
def bpA (root_player : Nat) : Option Nat → ℚ → MCTSNode → MCTSNode :=
  fun _pp result n =>
    if player_who_moved n = root_player then n.update result else n.update (1 - result)

/-- Backpropagation loop body of `MCTS_Connect4/connect4_mcts.py`: the
root (no parent) is updated with the raw result; other nodes use
`node.parent.state.current_player`. -/
def bpB (root_player : Nat) : Option Nat → ℚ → MCTSNode → MCTSNode :=
  fun pp result n =>
    match pp with
    | none => n.update result
    | some parent_player =>
      if parent_player = root_player then n.update result else n.update (1 - result)

/-- The backpropagation `while node is not None` walk of
`connect4_mcts.py`, over the parent chain listed from the
expanded/selected node up to the root. -/
def backpropA (root_player : Nat) (result : ℚ) : List MCTSNode → List MCTSNode
  | [] => []
  | n :: ancestors => bpA root_player none result n :: backpropA root_player result ancestors

/-! ## UCB1 child selection

`select_scan` walks the children in order exactly as the source loop
does.  The first child with zero visits is returned immediately (its
index), before its UCB1 formula would be computed; for every other
child visited on the way, the pair
`(self.visits, child.visits)` of operands at which the source evaluates
`math.log(self.visits) / child.visits` is recorded in the trace. -/

def select_scan (pv : Nat) : List MCTSNode → Nat → List (Nat × Nat) →
    Option Nat × List (Nat × Nat)
  | [], _, acc => (none, acc)
  | c :: rest, i, acc =>
    if c.visits = 0 then (some i, acc)
    else select_scan pv rest (i + 1) (acc ++ [(pv, c.visits)])

/-- Selection entry point `select_child_uct`, with the float argmax over
completed UCB1 scores and the uniform tie-break both abstracted by the
oracle draw `pick`. -/
def select_child_idx (pv : Nat) (cs : List MCTSNode) (pick : Nat) :
    Nat × List (Nat × Nat) :=
  match select_scan pv cs 0 [] with
  | (some i, tr) => (i, tr)
  | (none, tr) => (pick % cs.length, tr)

/-- One comparison step of Python's `max(children, key=lambda c: c.visits)`:
the running maximum is replaced only on a strict increase, so the first
maximal element wins ties. -/
def maxStep (acc : Option MCTSNode) (c : MCTSNode) : Option MCTSNode :=
  match acc with
  | none => some c
  | some b => if c.visits > b.visits then some c else some b

/-- Python's `max(children, key=lambda c: c.visits)`: first maximal
element in list order (`None` on an empty list, where the source would
not call `max` at all). -/
def maxByVisits (cs : List MCTSNode) : Option MCTSNode :=
  cs.foldl maxStep none

/-- Final selection `best_child(exploration_weight)`: `None` without children,
the most visited child for weight `0`, otherwise UCT selection. -/
def best_child (n : MCTSNode) (ew : ℚ) (pick : Nat) : Option MCTSNode :=
  if n.children.isEmpty then none
  else if ew = 0 then maxByVisits n.children
  else some (n.children.getD (select_child_idx n.visits n.children pick).1 defaultNode)

/-! ## Rollout -/

def evaluate_terminal_state (s : Connect4State) (player : Nat) : ℚ :=
  match check_winner s.board with
  | none => 1 / 2
  | some w => if w = player then 1 else 0

def playoutFuel : Nat := ROWS * COLS

/-- The random playout loop; fuel-based recursion (the loop fills at
least one board cell per step, so `ROWS * COLS` steps always suffice). -/
def playout (rand : Nat → Nat) : Nat → Nat → Connect4State → Connect4State × Nat
  | k, 0, s => (s, k)
  | k, fuel + 1, s =>
    if is_terminal s then (s, k)
    else
      let moves := get_legal_moves s.board
      if moves = [] then (s, k)
      else playout rand (k + 1) fuel (make_move s (moves.getD (rand k % moves.length) 0)).2

def simulate_random_playout (rand : Nat → Nat) (k : Nat) (s : Connect4State)
    (player : Nat) : ℚ × Nat :=
  let pr := playout rand k playoutFuel s
  (evaluate_terminal_state pr.1 player, pr.2)

/-! ## The search loop

One iteration of the `for _ in range(iterations)` loop, parametrized by
the backpropagation rule `bp` so that both source variants share the
embedding.  The descent recursion carries the player to move at the
parent (`pp`, `none` at the root) and mirrors selection
(fully-expanded, non-terminal nodes), expansion and simulation; the
updates applied on the way back out of the recursion are exactly the
source's backpropagation walk from the reached node up to the root.
`fuel` bounds the descent depth (the real tree is at most `ROWS * COLS`
deep); all theorems hold for every fuel value. -/

def leafStep (rp : Nat) (bp : Option Nat → ℚ → MCTSNode → MCTSNode) (rand : Nat → Nat)
    (pp : Option Nat) (k : Nat) (n : MCTSNode) : MCTSNode × ℚ × Nat :=
  let sim := simulate_random_playout rand k n.state rp
  (bp pp sim.1 n, sim.1, sim.2)

def expandStep (rp : Nat) (bp : Option Nat → ℚ → MCTSNode → MCTSNode) (rand : Nat → Nat)
    (pp : Option Nat) (k : Nat) (n : MCTSNode) : MCTSNode × ℚ × Nat :=
  let ms := n.untried_moves
  let m := ms.getD (rand k % ms.length) 0
  let s2 := (make_move n.state m).2
  let child := mkNode s2 (some m)
  let sim := simulate_random_playout rand (k + 1) s2 rp
  let child2 := bp (some n.state.current_player) sim.1 child
  (bp pp sim.1 (setExpansion n (ms.erase m) (n.children ++ [child2])), sim.1, sim.2)

def iterateOnce (rp : Nat) (bp : Option Nat → ℚ → MCTSNode → MCTSNode) (rand : Nat → Nat) :
    Nat → Option Nat → Nat → MCTSNode → MCTSNode × ℚ × Nat
  | 0, pp, k, n => leafStep rp bp rand pp k n
  | fuel + 1, pp, k, n =>
    if n.untried_moves = [] ∧ is_terminal n.state = false then
      if n.children.isEmpty then leafStep rp bp rand pp k n
      else
        let i := (select_child_idx n.visits n.children (rand k)).1
        let res := iterateOnce rp bp rand fuel (some n.state.current_player) (k + 1)
          (n.children.getD i defaultNode)
        (bp pp res.2.1 (setChildren n (n.children.set i res.1)), res.2.1, res.2.2)
    else if is_terminal n.state = false ∧ n.untried_moves ≠ [] then
      expandStep rp bp rand pp k n
    else leafStep rp bp rand pp k n

def runIters (rp : Nat) (bp : Option Nat → ℚ → MCTSNode → MCTSNode) (rand : Nat → Nat)
    (fuel : Nat) : Nat → Nat → MCTSNode → MCTSNode
  | 0, _, n => n
  | steps + 1, k, n =>
    let res := iterateOnce rp bp rand fuel none k n
    runIters rp bp rand fuel steps res.2.2 res.1

/-- Root tree built by `mcts_search` of `connect4_mcts.py` after all
iterations (`root_player` is captured from the root state; the
exploration constant only enters the abstracted float scores). -/
def searchTreeA (s : Connect4State) (iterations : Nat) (_ec : ℚ) (rand : Nat → Nat)
    (fuel : Nat) : MCTSNode :=
  runIters s.current_player (bpA s.current_player) rand fuel iterations 0 (mkNode s none)

/-- Search entry point `mcts_search` of `connect4_mcts.py`: `None` on a terminal root,
otherwise the move of `best_child(exploration_weight=0)`. -/
def mcts_search (s : Connect4State) (iterations : Nat) (ec : ℚ) (rand : Nat → Nat)
    (fuel : Nat) : Option Nat :=
  if is_terminal s then none
  else
    match best_child (searchTreeA s iterations ec rand fuel) 0 0 with
    | none => none
    | some c => c.move

/-! ## The statistics-returning variant (`MCTS_Connect4/connect4_mcts.py`) -/

def searchTreeB (s : Connect4State) (iterations : Nat) (_ec : ℚ) (rand : Nat → Nat)
    (fuel : Nat) : MCTSNode :=
  runIters s.current_player (bpB s.current_player) rand fuel iterations 0 (mkNode s none)

/-- The statistics bundle (the float `ucb_score` display entry is not
modelled, see the header). -/
structure SearchStats where
  selected_move : Option Nat
  selected_win_rate : ℚ
  selected_visits : Nat
  total_simulations : Nat
  all_moves : List (Nat × ℚ × Nat)
deriving DecidableEq, Repr

/-- Reading `stats.get('total_simulations', 0)` from the returned dictionary
(`none` models the empty dictionary `{}`). -/
def statsTotalSimulations : Option SearchStats → Nat
  | none => 0
  | some st => st.total_simulations

def insertByVisitsDesc (x : Nat × ℚ × Nat) : List (Nat × ℚ × Nat) → List (Nat × ℚ × Nat)
  | [] => [x]
  | y :: ys => if y.2.2 < x.2.2 then x :: y :: ys else y :: insertByVisitsDesc x ys

/-- Sorting `move_stats.sort(key=lambda x: x['visits'], reverse=True)`: stable,
descending by visit count. -/
def sortByVisitsDesc : List (Nat × ℚ × Nat) → List (Nat × ℚ × Nat)
  | [] => []
  | x :: xs => insertByVisitsDesc x (sortByVisitsDesc xs)

/-- Search entry point of `MCTS_Connect4/connect4_mcts.py`: returns the pair
`(best move, statistics)`, with `(None, {})` on a terminal root. -/
def mcts_search_stats (s : Connect4State) (iterations : Nat) (ec : ℚ) (rand : Nat → Nat)
    (fuel : Nat) : Option Nat × Option SearchStats :=
  if is_terminal s then (none, none)
  else
    let root := searchTreeB s iterations ec rand fuel
    let bc := if root.children.isEmpty then none else maxByVisits root.children
    let raw := (root.children.filter (fun c => c.visits != 0)).map
      (fun c => (c.move.getD 0, c.wins / (c.visits : ℚ) * 100, c.visits))
    let stats : SearchStats :=
      ⟨(match bc with | some c => c.move | none => none),
       (match bc with
        | some c => if c.visits ≠ 0 then c.wins / (c.visits : ℚ) * 100 else 0
        | none => 0),
       (match bc with | some c => c.visits | none => 0),
       root.visits,
       sortByVisitsDesc raw⟩
    match bc with
    | none => (none, some stats)
    | some c => (c.move, some stats)

/-! ## Concrete states used as witnesses and counterexamples -/

/-- A full board entirely owned by player 1: terminal, full, and with a
winner at the same time. -/
def allOnesState : Connect4State :=
  ⟨List.replicate ROWS (List.replicate COLS PLAYER1), PLAYER1⟩

def allOnesBoard : Board := List.replicate ROWS (List.replicate COLS PLAYER1)

/-- A drawn-pattern board with a single empty cell at the top of column
6, player 2 to move: non-terminal, one legal move, and the move fills
the board without creating a winner. -/
def nearFullBoard : Board :=
  [[2, 1, 2, 1, 2, 1, 0],
   [2, 1, 2, 1, 2, 1, 2],
   [1, 2, 1, 2, 1, 2, 1],
   [1, 2, 1, 2, 1, 2, 1],
   [2, 1, 2, 1, 2, 1, 2],
   [2, 1, 2, 1, 2, 1, 2]]

def nearFullState : Connect4State := ⟨nearFullBoard, PLAYER2⟩

/-- A state whose column 0 is completely full. -/
def fullColumnState : Connect4State :=
  ⟨List.replicate ROWS ([1, 0, 0, 0, 0, 0, 0] : List Nat), PLAYER1⟩

/-- A child node of the initial position reached by the move in column 0. -/
def exampleChild0 : MCTSNode := mkNode (make_move initialState 0).2 (some 0)

/-- A child node of the initial position reached by the move in column 3. -/
def exampleChild3 : MCTSNode := mkNode (make_move initialState 3).2 (some 3)

/-! ## Invariants -/

/-- The per-node statistics invariant of the spec, required at every
node of a tree: `0 ≤ total_reward ≤ visit_count` and
`visit_count == 0 ⇒ total_reward == 0`. -/
inductive TreeInv : MCTSNode → Prop where
  | node : ∀ (s : Connect4State) (m : Option Nat) (v : Nat) (w : ℚ)
      (u : List Nat) (cs : List MCTSNode),
      0 ≤ w → w ≤ (v : ℚ) → (v = 0 → w = 0) → (∀ c ∈ cs, TreeInv c) →
      TreeInv (.node s m v w u cs)

/-- Parent-child visit ordering: every child of every node has been
visited at most as often as the node itself. -/
inductive VisitOrder : MCTSNode → Prop where
  | node : ∀ (s : Connect4State) (m : Option Nat) (v : Nat) (w : ℚ)
      (u : List Nat) (cs : List MCTSNode),
      (∀ c ∈ cs, c.visits ≤ v) → (∀ c ∈ cs, VisitOrder c) →
      VisitOrder (.node s m v w u cs)

/-- Every (top-level) child of a node carries the move that created it. -/
def ChildMovesSome (n : MCTSNode) : Prop :=
  ∀ c ∈ n.children, (c.move).isSome = true

/-- A backpropagation rule that only ever performs a node `update`
(with some reward), as both source variants do. -/
def bpShape (bp : Option Nat → ℚ → MCTSNode → MCTSNode) : Prop :=
  ∀ (pp : Option Nat) (r : ℚ) (n : MCTSNode), ∃ x : ℚ, bp pp r n = n.update x

/-- A backpropagation rule whose added reward stays in `[0, 1]`
whenever the rollout outcome does. -/
def bpSound (bp : Option Nat → ℚ → MCTSNode → MCTSNode) : Prop :=
  ∀ (pp : Option Nat) (r : ℚ) (n : MCTSNode), 0 ≤ r → r ≤ 1 →
    ∃ x : ℚ, 0 ≤ x ∧ x ≤ 1 ∧ bp pp r n = n.update x



/-! ## Basic projection lemmas -/

@[simp] lemma MCTSNode.state_def (s m v w u cs) : (MCTSNode.node s m v w u cs).state = s := rfl

@[simp] lemma MCTSNode.move_def (s m v w u cs) : (MCTSNode.node s m v w u cs).move = m := rfl

@[simp] lemma MCTSNode.visits_def (s m v w u cs) : (MCTSNode.node s m v w u cs).visits = v := rfl

@[simp] lemma MCTSNode.wins_def (s m v w u cs) : (MCTSNode.node s m v w u cs).wins = w := rfl

@[simp] lemma MCTSNode.untried_def (s m v w u cs) :
    (MCTSNode.node s m v w u cs).untried_moves = u := rfl

@[simp] lemma MCTSNode.children_def (s m v w u cs) :
    (MCTSNode.node s m v w u cs).children = cs := rfl

@[simp] lemma update_visits (n : MCTSNode) (r : ℚ) : (n.update r).visits = n.visits + 1 := by
  cases n; rfl

@[simp] lemma update_wins (n : MCTSNode) (r : ℚ) : (n.update r).wins = n.wins + r := by
  cases n; rfl

@[simp] lemma update_state (n : MCTSNode) (r : ℚ) : (n.update r).state = n.state := by
  cases n; rfl

@[simp] lemma update_move (n : MCTSNode) (r : ℚ) : (n.update r).move = n.move := by
  cases n; rfl

@[simp] lemma update_untried (n : MCTSNode) (r : ℚ) :
    (n.update r).untried_moves = n.untried_moves := by cases n; rfl

@[simp] lemma update_children (n : MCTSNode) (r : ℚ) : (n.update r).children = n.children := by
  cases n; rfl

@[simp] lemma setChildren_children (n : MCTSNode) (cs : List MCTSNode) :
    (setChildren n cs).children = cs := by cases n; rfl

@[simp] lemma setChildren_visits (n : MCTSNode) (cs : List MCTSNode) :
    (setChildren n cs).visits = n.visits := by cases n; rfl

@[simp] lemma setChildren_wins (n : MCTSNode) (cs : List MCTSNode) :
    (setChildren n cs).wins = n.wins := by cases n; rfl

@[simp] lemma setChildren_state (n : MCTSNode) (cs : List MCTSNode) :
    (setChildren n cs).state = n.state := by cases n; rfl

@[simp] lemma setChildren_move (n : MCTSNode) (cs : List MCTSNode) :
    (setChildren n cs).move = n.move := by cases n; rfl

@[simp] lemma setExpansion_children (n : MCTSNode) (u : List Nat) (cs : List MCTSNode) :
    (setExpansion n u cs).children = cs := by cases n; rfl

@[simp] lemma setExpansion_visits (n : MCTSNode) (u : List Nat) (cs : List MCTSNode) :
    (setExpansion n u cs).visits = n.visits := by cases n; rfl

@[simp] lemma setExpansion_wins (n : MCTSNode) (u : List Nat) (cs : List MCTSNode) :
    (setExpansion n u cs).wins = n.wins := by cases n; rfl

@[simp] lemma setExpansion_state (n : MCTSNode) (u : List Nat) (cs : List MCTSNode) :
    (setExpansion n u cs).state = n.state := by cases n; rfl

@[simp] lemma setExpansion_move (n : MCTSNode) (u : List Nat) (cs : List MCTSNode) :
    (setExpansion n u cs).move = n.move := by cases n; rfl

@[simp] lemma mkNode_state (s mv) : (mkNode s mv).state = s := rfl

@[simp] lemma mkNode_move (s mv) : (mkNode s mv).move = mv := rfl

@[simp] lemma mkNode_visits (s mv) : (mkNode s mv).visits = 0 := rfl

@[simp] lemma mkNode_wins (s mv) : (mkNode s mv).wins = 0 := rfl

@[simp] lemma mkNode_children (s mv) : (mkNode s mv).children = [] := rfl

/-! ## Backpropagation rule lemmas -/

lemma bpA_eq_update (rp : Nat) (pp : Option Nat) (r : ℚ) (n : MCTSNode) :
    bpA rp pp r n = n.update (if player_who_moved n = rp then r else 1 - r) := by
  unfold bpA
  by_cases h : player_who_moved n = rp <;> simp [h]

@[simp] lemma bpA_visits (rp : Nat) (pp : Option Nat) (r : ℚ) (n : MCTSNode) :
    (bpA rp pp r n).visits = n.visits + 1 := by
  rw [bpA_eq_update]; simp

lemma bpB_none_eq (rp : Nat) (r : ℚ) (n : MCTSNode) : bpB rp none r n = n.update r := rfl

lemma bpB_some_eq (rp q : Nat) (r : ℚ) (n : MCTSNode) :
    bpB rp (some q) r n = n.update (if q = rp then r else 1 - r) := by
  unfold bpB
  by_cases h : q = rp <;> simp [h]

@[simp] lemma bpB_visits (rp : Nat) (pp : Option Nat) (r : ℚ) (n : MCTSNode) :
    (bpB rp pp r n).visits = n.visits + 1 := by
  cases pp with
  | none => rw [bpB_none_eq]; simp
  | some q => rw [bpB_some_eq]; simp

lemma bpA_shape (rp : Nat) : bpShape (bpA rp) := by
  intro pp r n
  exact ⟨_, bpA_eq_update rp pp r n⟩

lemma bpB_shape (rp : Nat) : bpShape (bpB rp) := by
  intro pp r n
  cases pp with
  | none => exact ⟨r, bpB_none_eq rp r n⟩
  | some q => exact ⟨_, bpB_some_eq rp q r n⟩

lemma bpA_sound (rp : Nat) : bpSound (bpA rp) := by
  intro pp r n h0 h1
  refine ⟨if player_who_moved n = rp then r else 1 - r, ?_, ?_, bpA_eq_update rp pp r n⟩ <;>
    split <;> linarith

lemma bpB_sound (rp : Nat) : bpSound (bpB rp) := by
  intro pp r n h0 h1
  cases pp with
  | none => exact ⟨r, h0, h1, bpB_none_eq rp r n⟩
  | some q =>
    refine ⟨if q = rp then r else 1 - r, ?_, ?_, bpB_some_eq rp q r n⟩ <;> split <;> linarith

/-! ## Game rule lemmas -/

lemma mem_get_legal_moves {b : Board} {c : Nat} :
    c ∈ get_legal_moves b ↔ c < COLS ∧ cellAt b 0 c = EMPTY := by
  simp [get_legal_moves, List.mem_filter, List.mem_range, and_comm]

lemma make_move_of_top_empty {s : Connect4State} {col : Nat}
    (h : cellAt s.board 0 col = EMPTY) :
    (make_move s col).1 = true ∧
    (make_move s col).2.current_player = other_player s.current_player := by
  have hsome : (dropRow s.board col).isSome := by
    rw [dropRow, List.find?_isSome]
    refine ⟨0, ?_, ?_⟩
    · simp [List.mem_reverse, List.mem_range, ROWS]
    · simp [h]
  rcases hdr : dropRow s.board col with _ | r
  · rw [hdr] at hsome; simp at hsome
  · simp [make_move, hdr]

/-! ## Claim C7 -/

/-- C7: applying `make_move` to a column with no empty cell reports
failure (`False`) and leaves both the board and the current player
unchanged.  The column is given as full in the sense the claim uses —
its topmost cell is occupied — together with the gravity invariant
every reachable board satisfies (a piece never floats above an empty
cell), under which a column with an occupied top is entirely full. -/
theorem C7_full_column_rejected (s : Connect4State) (col : Nat)
    (hgrav : ∀ r : Nat, r + 1 < ROWS → cellAt s.board r col ≠ EMPTY →
      cellAt s.board (r + 1) col ≠ EMPTY)
    (htop : cellAt s.board 0 col ≠ EMPTY) :
    make_move s col = (false, s) := by
  have h1 : cellAt s.board 1 col ≠ EMPTY := hgrav 0 (by norm_num [ROWS]) htop
  have h2 : cellAt s.board 2 col ≠ EMPTY := hgrav 1 (by norm_num [ROWS]) h1
  have h3 : cellAt s.board 3 col ≠ EMPTY := hgrav 2 (by norm_num [ROWS]) h2
  have h4 : cellAt s.board 4 col ≠ EMPTY := hgrav 3 (by norm_num [ROWS]) h3
  have h5 : cellAt s.board 5 col ≠ EMPTY := hgrav 4 (by norm_num [ROWS]) h4
  have hnone : dropRow s.board col = none := by
    rw [dropRow, List.find?_eq_none]
    intro x hx
    rw [List.mem_reverse, List.mem_range, ROWS] at hx
    interval_cases x <;> simp_all
  simp [make_move, hnone]

/-- Witness for C7 at a state whose column 0 is completely full. -/
theorem C7_witness :
    make_move fullColumnState 0 = (false, fullColumnState) :=
  C7_full_column_rejected fullColumnState 0
    (by
      intro r hr hne
      have hub : r < 5 := by rw [ROWS] at hr; omega
      interval_cases r <;> decide)
    (by decide)

/-! ## Claim C8 -/

/-- C8 counterexample: on the completely full board owned by player 1,
`is_full` returns `True` although a winner exists, so `is_full` is not
"no legal moves and no winner". -/
theorem C8_counterexample :
    ¬ (is_full allOnesBoard = true ↔
        (get_legal_moves allOnesBoard = [] ∧ check_winner allOnesBoard = none)) := by
  decide

/-- C8 amended: `is_full` returns `True` exactly when there are no
legal moves; it does not consult the winner. -/
theorem C8_amended (b : Board) : is_full b = true ↔ get_legal_moves b = [] := by
  rw [is_full, List.all_eq_true, get_legal_moves, List.filter_eq_nil_iff]
  constructor <;> intro h x hx <;> have hh := h x hx <;> simpa using hh

/-! ## Claim C9 -/

/-- C9 counterexample: `mcts_search` performs no boundary validation.
With `iterations = 0` it proceeds to the ordinary no-children return of
`None` instead of signalling a configuration error, and with the
non-positive exploration constant `-1` it runs normally and produces a
move. -/
theorem C9_counterexample :
    mcts_search initialState 0 (1414 / 1000) (fun _ => 0) 42 = none ∧
    mcts_search nearFullState 1 (-1) (fun _ => 0) 42 = some 6 := by
  exact ⟨by decide, by decide⟩

/-- C9 amended: `mcts_search` does not validate its parameters; with a
non-positive iteration count (`0`, the image of every non-positive
Python int) the loop body never runs and the function returns `None`
through the normal no-children path, for every exploration constant. -/
theorem C9_amended (s : Connect4State) (ec : ℚ) (rand : Nat → Nat) (fuel : Nat) :
    mcts_search s 0 ec rand fuel = none := by
  by_cases h : is_terminal s
  · simp [mcts_search, h]
  · simp [mcts_search, h, searchTreeA, runIters, best_child, mkNode]

/-! ## Claim C6 -/

/-- C6: on a terminal input state both search variants return an
absent selected move without any other effect, and the
statistics-returning variant reports zero total simulations (the empty
dictionary read back with default `0`), for every iterations argument. -/
theorem C6_terminal_no_move (s : Connect4State) (iterations : Nat) (ec : ℚ)
    (rand : Nat → Nat) (fuel : Nat) (h : is_terminal s = true) :
    mcts_search s iterations ec rand fuel = none ∧
    mcts_search_stats s iterations ec rand fuel = (none, none) ∧
    statsTotalSimulations (mcts_search_stats s iterations ec rand fuel).2 = 0 := by
  refine ⟨?_, ?_, ?_⟩ <;> simp [mcts_search, mcts_search_stats, statsTotalSimulations, h]

/-- Witness for C6 at the terminal all-ones state. -/
theorem C6_witness :
    mcts_search allOnesState 1000 (1414 / 1000) (fun _ => 0) 42 = none ∧
    mcts_search_stats allOnesState 1000 (1414 / 1000) (fun _ => 0) 42 = (none, none) ∧
    statsTotalSimulations
      (mcts_search_stats allOnesState 1000 (1414 / 1000) (fun _ => 0) 42).2 = 0 :=
  C6_terminal_no_move allOnesState 1000 (1414 / 1000) (fun _ => 0) 42 (by decide)

/-! ## Claim C1 -/

/-- C1: backpropagation walks the whole parent chain from the
expanded/selected node to the root, updating every node on it exactly
once (`backpropA` is the map of the per-node update), and at a node
reached by a legal move `m` from its parent's state `ps` — so that
`ps.current_player` is the player who made the move landing in the
node — the update increments the visit count by 1 and adds the rollout
outcome unchanged when that mover equals the root player and
`1 - outcome` otherwise. -/
theorem C1_backprop_perspective (rp : Nat) (r : ℚ) :
    (∀ path : List MCTSNode, backpropA rp r path = path.map (bpA rp none r)) ∧
    (∀ (ps : Connect4State) (m : Nat) (n : MCTSNode),
      (ps.current_player = PLAYER1 ∨ ps.current_player = PLAYER2) →
      m ∈ get_legal_moves ps.board →
      n.state = (make_move ps m).2 →
      (bpA rp none r n).visits = n.visits + 1 ∧
      bpA rp none r n = n.update (if ps.current_player = rp then r else 1 - r)) := by
  constructor
  · intro path
    induction path with
    | nil => rfl
    | cons n rest ih => simp [backpropA, ih]
  · intro ps m n hp hm hst
    have hcell : cellAt ps.board 0 m = EMPTY := (mem_get_legal_moves.mp hm).2
    have hflip := (make_move_of_top_empty hcell).2
    have hmover : player_who_moved n = ps.current_player := by
      rw [player_who_moved, hst, hflip]
      rcases hp with hp | hp <;> rw [hp] <;> simp [other_player, PLAYER1, PLAYER2]
    refine ⟨bpA_visits rp none r n, ?_⟩
    rw [bpA_eq_update, hmover]

/-- Witness for C1 at the child of the initial position reached by the
move in column 0. -/
theorem C1_witness :
    (bpA PLAYER2 none 1 exampleChild0).visits = exampleChild0.visits + 1 ∧
    bpA PLAYER2 none 1 exampleChild0 =
      exampleChild0.update (if initialState.current_player = PLAYER2 then 1 else 1 - 1) :=
  (C1_backprop_perspective PLAYER2 1).2 initialState 0 exampleChild0
    (Or.inl rfl) (by decide) rfl

/-! ## Claim C10 -/

/-- C10 counterexample: at the root node of a search from the initial
position, with rollout outcome `1`, the two backpropagation variants
add different rewards (`connect4_mcts.py` adds `1 - 1 = 0`,
`MCTS_Connect4/connect4_mcts.py` adds the raw `1`), so they are not
identical at every node of every backpropagation path. -/
theorem C10_counterexample :
    (bpA PLAYER1 none 1 (mkNode initialState none)).wins ≠
    (bpB PLAYER1 none 1 (mkNode initialState none)).wins := by
  rw [bpA_eq_update, bpB_none_eq, if_neg (by decide)]
  simp only [update_wins, mkNode_wins]
  norm_num

/-- C10 amended: under strict turn alternation the two variants agree
at every non-root node (where the landing player `q` is the parent's
current player and the node's own current player is `other_player q`);
at the root they differ — the statistics variant adds the raw outcome
while the other adds `1 - outcome` — so they agree at the root only
when the outcome is `1/2`. -/
theorem C10_amended (rp : Nat) (r : ℚ) :
    (∀ (n : MCTSNode) (q : Nat), (q = PLAYER1 ∨ q = PLAYER2) →
      n.state.current_player = other_player q →
      bpB rp (some q) r n = bpA rp (some q) r n) ∧
    (∀ n : MCTSNode, bpB rp none r n = n.update r) ∧
    (∀ n : MCTSNode, (rp = PLAYER1 ∨ rp = PLAYER2) → n.state.current_player = rp →
      bpA rp none r n = n.update (1 - r)) := by
  refine ⟨?_, fun n => bpB_none_eq rp r n, ?_⟩
  · intro n q hq halt
    have hmover : player_who_moved n = q := by
      rw [player_who_moved, halt]
      rcases hq with hq | hq <;> rw [hq] <;> simp [other_player, PLAYER1, PLAYER2]
    rw [bpB_some_eq, bpA_eq_update, hmover]
  · intro n hrp hcur
    have hmover : player_who_moved n ≠ rp := by
      rw [player_who_moved, hcur]
      rcases hrp with hrp | hrp <;> rw [hrp] <;> simp [PLAYER1, PLAYER2]
    rw [bpA_eq_update, if_neg hmover]

/-- Witness for C10 (amended) at a non-root node: the child of the
initial position reached by the move in column 3, whose landing player
is player 1. -/
theorem C10_witness :
    bpB PLAYER2 (some PLAYER1) 1 exampleChild3 = bpA PLAYER2 (some PLAYER1) 1 exampleChild3 :=
  (C10_amended PLAYER2 1).1 exampleChild3 PLAYER1 (Or.inl rfl) (by decide)



/-! ## UCB1 selection lemmas -/

lemma select_scan_trace (pv : Nat) :
    ∀ (cs : List MCTSNode) (i : Nat) (acc : List (Nat × Nat)),
      (∀ c ∈ cs, c.visits ≤ pv) → (∀ e ∈ acc, e.1 ≠ 0 ∧ e.2 ≠ 0) →
      ∀ e ∈ (select_scan pv cs i acc).2, e.1 ≠ 0 ∧ e.2 ≠ 0 := by
  intro cs
  induction cs with
  | nil =>
    intro i acc hle hacc e he
    simp only [select_scan] at he
    exact hacc e he
  | cons c rest ih =>
    intro i acc hle hacc e he
    simp only [select_scan] at he
    by_cases hz : c.visits = 0
    · rw [if_pos hz] at he
      exact hacc e he
    · rw [if_neg hz] at he
      refine ih (i + 1) _ (fun d hd => hle d (List.mem_cons_of_mem _ hd)) ?_ e he
      intro e2 he2
      rcases List.mem_append.mp he2 with h | h
      · exact hacc e2 h
      · rw [List.mem_singleton] at h
        subst h
        have hcle := hle c (List.mem_cons_self _ _)
        exact ⟨by omega, hz⟩

lemma select_scan_some_spec (pv : Nat) :
    ∀ (cs : List MCTSNode) (i : Nat) (acc : List (Nat × Nat)) (j : Nat)
      (tr : List (Nat × Nat)),
      select_scan pv cs i acc = (some j, tr) →
      i ≤ j ∧ j - i < cs.length ∧ (cs.getD (j - i) defaultNode).visits = 0 := by
  intro cs
  induction cs with
  | nil =>
    intro i acc j tr h
    simp [select_scan] at h
  | cons c rest ih =>
    intro i acc j tr h
    simp only [select_scan] at h
    by_cases hz : c.visits = 0
    · rw [if_pos hz] at h
      obtain ⟨h1, h2⟩ := Prod.mk.injEq _ _ _ _ ▸ h
      injection h1 with h1
      subst h1
      refine ⟨le_refl i, by simp, ?_⟩
      simpa using hz
    · rw [if_neg hz] at h
      obtain ⟨h1, h2, h3⟩ := ih (i + 1) _ j tr h
      refine ⟨by omega, ?_, ?_⟩
      · simp only [List.length_cons]
        omega
      · have hji : j - i = (j - (i + 1)) + 1 := by omega
        rw [hji]
        simpa using h3

lemma select_scan_finds_zero (pv : Nat) :
    ∀ (cs : List MCTSNode) (i : Nat) (acc : List (Nat × Nat)),
      (∃ c ∈ cs, c.visits = 0) →
      ∃ j tr, select_scan pv cs i acc = (some j, tr) := by
  intro cs
  induction cs with
  | nil =>
    intro i acc hex
    simp at hex
  | cons c rest ih =>
    intro i acc hex
    by_cases hz : c.visits = 0
    · exact ⟨i, acc, by simp [select_scan, hz]⟩
    · obtain ⟨d, hd, hdz⟩ := hex
      rcases List.mem_cons.mp hd with h | h
      · exact absurd (h ▸ hdz) hz
      · obtain ⟨j, tr, hjt⟩ := ih (i + 1) (acc ++ [(pv, c.visits)]) ⟨d, h, hdz⟩
        exact ⟨j, tr, by simp only [select_scan]; rw [if_neg hz]; exact hjt⟩

lemma select_child_idx_lt {pv : Nat} {cs : List MCTSNode} {pick : Nat} (h : cs ≠ []) :
    (select_child_idx pv cs pick).1 < cs.length := by
  rw [select_child_idx]
  rcases heq : select_scan pv cs 0 [] with ⟨oi, tr⟩
  cases oi with
  | none =>
    simp only []
    exact Nat.mod_lt _ (List.length_pos.mpr h)
  | some j =>
    simp only []
    have hs := select_scan_some_spec pv cs 0 [] j tr heq
    omega

lemma select_child_idx_zero {pv : Nat} {cs : List MCTSNode} {pick : Nat}
    (hex : ∃ c ∈ cs, c.visits = 0) :
    (cs.getD (select_child_idx pv cs pick).1 defaultNode).visits = 0 := by
  rw [select_child_idx]
  obtain ⟨j, tr, heq⟩ := select_scan_finds_zero pv cs 0 [] hex
  rw [heq]
  have hs := select_scan_some_spec pv cs 0 [] j tr heq
  simpa using hs.2.2

lemma select_child_idx_trace {pv : Nat} {cs : List MCTSNode} {pick : Nat}
    (hle : ∀ c ∈ cs, c.visits ≤ pv) :
    ∀ e ∈ (select_child_idx pv cs pick).2, e.1 ≠ 0 ∧ e.2 ≠ 0 := by
  rw [select_child_idx]
  rcases heq : select_scan pv cs 0 [] with ⟨oi, tr⟩
  have htr : ∀ e ∈ tr, e.1 ≠ 0 ∧ e.2 ≠ 0 := by
    have hh := select_scan_trace pv cs 0 [] hle (by simp)
    rw [heq] at hh
    exact hh
  cases oi <;> simpa using htr

/-! ## Python max lemmas -/

lemma maxByVisits_aux :
    ∀ (cs : List MCTSNode) (b : MCTSNode),
      ∃ m, cs.foldl maxStep (some b) = some m ∧ (m = b ∨ m ∈ cs) ∧
        b.visits ≤ m.visits ∧ ∀ d ∈ cs, d.visits ≤ m.visits := by
  intro cs
  induction cs with
  | nil =>
    intro b
    exact ⟨b, rfl, Or.inl rfl, le_refl _, by simp⟩
  | cons c rest ih =>
    intro b
    rw [List.foldl_cons]
    by_cases hgt : c.visits > b.visits
    · rw [show maxStep (some b) c = some c by simp [maxStep, hgt]]
      obtain ⟨m, h1, h2, h3, h4⟩ := ih c
      refine ⟨m, h1, ?_, by omega, ?_⟩
      · rcases h2 with h | h
        · exact Or.inr (h ▸ List.mem_cons_self _ _)
        · exact Or.inr (List.mem_cons_of_mem _ h)
      · intro d hd
        rcases List.mem_cons.mp hd with h | h
        · subst h; exact h3
        · exact h4 d h
    · rw [show maxStep (some b) c = some b by simp [maxStep, hgt]]
      obtain ⟨m, h1, h2, h3, h4⟩ := ih b
      refine ⟨m, h1, ?_, h3, ?_⟩
      · rcases h2 with h | h
        · exact Or.inl h
        · exact Or.inr (List.mem_cons_of_mem _ h)
      · intro d hd
        rcases List.mem_cons.mp hd with h | h
        · subst h; omega
        · exact h4 d h

lemma maxByVisits_spec {cs : List MCTSNode} {m : MCTSNode} (h : maxByVisits cs = some m) :
    m ∈ cs ∧ ∀ d ∈ cs, d.visits ≤ m.visits := by
  cases cs with
  | nil => simp [maxByVisits] at h
  | cons c rest =>
    rw [maxByVisits, List.foldl_cons, show maxStep none c = some c from rfl] at h
    obtain ⟨m2, h1, h2, h3, h4⟩ := maxByVisits_aux rest c
    rw [h1] at h
    injection h with h
    subst h
    constructor
    · rcases h2 with h | h
      · exact h ▸ List.mem_cons_self _ _
      · exact List.mem_cons_of_mem _ h
    · intro d hd
      rcases List.mem_cons.mp hd with h | h
      · subst h; exact h3
      · exact h4 d h

lemma maxByVisits_isSome (c : MCTSNode) (rest : List MCTSNode) :
    ∃ m, maxByVisits (c :: rest) = some m := by
  rw [maxByVisits, List.foldl_cons, show maxStep none c = some c from rfl]
  obtain ⟨m, h1, _⟩ := maxByVisits_aux rest c
  exact ⟨m, h1⟩

/-! ## Shape consequences of the backpropagation rules -/

lemma bp_visits_of_shape {bp} (hbp : bpShape bp) (pp : Option Nat) (r : ℚ) (n : MCTSNode) :
    (bp pp r n).visits = n.visits + 1 := by
  obtain ⟨x, hx⟩ := hbp pp r n
  rw [hx, update_visits]

lemma bp_children_of_shape {bp} (hbp : bpShape bp) (pp : Option Nat) (r : ℚ) (n : MCTSNode) :
    (bp pp r n).children = n.children := by
  obtain ⟨x, hx⟩ := hbp pp r n
  rw [hx, update_children]

lemma bp_move_of_shape {bp} (hbp : bpShape bp) (pp : Option Nat) (r : ℚ) (n : MCTSNode) :
    (bp pp r n).move = n.move := by
  obtain ⟨x, hx⟩ := hbp pp r n
  rw [hx, update_move]

/-! ## Rollout reward range -/

lemma evaluate_terminal_range (s : Connect4State) (p : Nat) :
    0 ≤ evaluate_terminal_state s p ∧ evaluate_terminal_state s p ≤ 1 := by
  cases hw : check_winner s.board with
  | none => rw [evaluate_terminal_state, hw]; norm_num
  | some w =>
    simp only [evaluate_terminal_state, hw]
    split <;> norm_num

lemma simulate_range (rand : Nat → Nat) (k : Nat) (s : Connect4State) (p : Nat) :
    0 ≤ (simulate_random_playout rand k s p).1 ∧ (simulate_random_playout rand k s p).1 ≤ 1 :=
  evaluate_terminal_range _ _

/-! ## Invariant preservation helpers -/

lemma TreeInv_update {n : MCTSNode} {x : ℚ} (h : TreeInv n) (h0 : 0 ≤ x) (h1 : x ≤ 1) :
    TreeInv (n.update x) := by
  cases h with
  | node s m v w u cs hw0 hwv hz hcs =>
    show TreeInv (.node s m (v + 1) (w + x) u cs)
    refine TreeInv.node s m (v + 1) (w + x) u cs (by linarith) ?_
      (fun hv => absurd hv (Nat.succ_ne_zero v)) hcs
    push_cast
    linarith

lemma TreeInv_setChildren {n : MCTSNode} {cs2 : List MCTSNode} (h : TreeInv n)
    (hcs : ∀ c ∈ cs2, TreeInv c) : TreeInv (setChildren n cs2) := by
  cases h with
  | node s m v w u cs hw0 hwv hz _ => exact TreeInv.node s m v w u cs2 hw0 hwv hz hcs

lemma TreeInv_setExpansion {n : MCTSNode} {u2 : List Nat} {cs2 : List MCTSNode} (h : TreeInv n)
    (hcs : ∀ c ∈ cs2, TreeInv c) : TreeInv (setExpansion n u2 cs2) := by
  cases h with
  | node s m v w u cs hw0 hwv hz _ => exact TreeInv.node s m v w u2 cs2 hw0 hwv hz hcs

lemma TreeInv_mkNode (s : Connect4State) (mv : Option Nat) : TreeInv (mkNode s mv) :=
  TreeInv.node _ _ _ _ _ _ (le_refl 0) (by norm_num) (fun _ => rfl) (by simp)

lemma TreeInv_children {n : MCTSNode} (h : TreeInv n) : ∀ c ∈ n.children, TreeInv c := by
  cases h with
  | node s m v w u cs _ _ _ hcs => simpa using hcs

lemma bp_TreeInv {bp} (hbp : bpSound bp) {pp : Option Nat} {r : ℚ} {n : MCTSNode}
    (h0 : 0 ≤ r) (h1 : r ≤ 1) (hn : TreeInv n) : TreeInv (bp pp r n) := by
  obtain ⟨x, hx0, hx1, hx⟩ := hbp pp r n h0 h1
  rw [hx]
  exact TreeInv_update hn hx0 hx1

lemma VisitOrder_bound {n : MCTSNode} (h : VisitOrder n) :
    ∀ c ∈ n.children, c.visits ≤ n.visits := by
  cases h with
  | node s m v w u cs hb _ => simpa using hb

lemma VisitOrder_children {n : MCTSNode} (h : VisitOrder n) :
    ∀ c ∈ n.children, VisitOrder c := by
  cases h with
  | node s m v w u cs _ hv => simpa using hv

lemma VisitOrder_update {n : MCTSNode} (x : ℚ) (h : VisitOrder n) : VisitOrder (n.update x) := by
  cases h with
  | node s m v w u cs hb hv =>
    show VisitOrder (.node s m (v + 1) (w + x) u cs)
    exact VisitOrder.node s m (v + 1) (w + x) u cs
      (fun c hc => le_trans (hb c hc) (Nat.le_succ v)) hv

lemma VisitOrder_mkNode (s : Connect4State) (mv : Option Nat) : VisitOrder (mkNode s mv) :=
  VisitOrder.node _ _ _ _ _ _ (by simp) (by simp)

lemma VisitOrder_build {n : MCTSNode} {cs2 : List MCTSNode} (x : ℚ)
    (hb : ∀ c ∈ cs2, c.visits ≤ n.visits + 1) (hv : ∀ c ∈ cs2, VisitOrder c) :
    VisitOrder ((setChildren n cs2).update x) := by
  cases n with
  | node s m v w u cs =>
    show VisitOrder (.node s m (v + 1) (w + x) u cs2)
    exact VisitOrder.node s m (v + 1) (w + x) u cs2 (by simpa using hb) hv

lemma VisitOrder_build_exp {n : MCTSNode} {u2 : List Nat} {cs2 : List MCTSNode} (x : ℚ)
    (hb : ∀ c ∈ cs2, c.visits ≤ n.visits + 1) (hv : ∀ c ∈ cs2, VisitOrder c) :
    VisitOrder ((setExpansion n u2 cs2).update x) := by
  cases n with
  | node s m v w u cs =>
    show VisitOrder (.node s m (v + 1) (w + x) u2 cs2)
    exact VisitOrder.node s m (v + 1) (w + x) u2 cs2 (by simpa using hb) hv

lemma getD_mem {cs : List MCTSNode} {i : Nat} (h : i < cs.length) :
    cs.getD i defaultNode ∈ cs := by
  rw [List.getD_eq_getElem _ _ h]
  exact List.getElem_mem h



/-! ## Per-iteration lemmas -/

@[simp] lemma leafStep_fst (rp : Nat) (bp : Option Nat → ℚ → MCTSNode → MCTSNode)
    (rand : Nat → Nat) (pp : Option Nat) (k : Nat) (n : MCTSNode) :
    (leafStep rp bp rand pp k n).1 = bp pp (simulate_random_playout rand k n.state rp).1 n := rfl

@[simp] lemma leafStep_result (rp : Nat) (bp : Option Nat → ℚ → MCTSNode → MCTSNode)
    (rand : Nat → Nat) (pp : Option Nat) (k : Nat) (n : MCTSNode) :
    (leafStep rp bp rand pp k n).2.1 = (simulate_random_playout rand k n.state rp).1 := rfl

lemma iterateOnce_visits (rp : Nat) (bp : Option Nat → ℚ → MCTSNode → MCTSNode)
    (rand : Nat → Nat) (hbp : bpShape bp) :
    ∀ (fuel : Nat) (pp : Option Nat) (k : Nat) (n : MCTSNode),
      ((iterateOnce rp bp rand fuel pp k n).1).visits = n.visits + 1 := by
  intro fuel pp k n
  cases fuel with
  | zero =>
    show ((leafStep rp bp rand pp k n).1).visits = n.visits + 1
    rw [leafStep_fst, bp_visits_of_shape hbp]
  | succ fuel =>
    by_cases h1 : n.untried_moves = [] ∧ is_terminal n.state = false
    · by_cases h2 : n.children.isEmpty
      · simp only [iterateOnce, if_pos h1, if_pos h2, leafStep_fst, bp_visits_of_shape hbp]
      · simp only [iterateOnce, if_pos h1, if_neg h2]
        rw [bp_visits_of_shape hbp, setChildren_visits]
    · by_cases h2 : is_terminal n.state = false ∧ n.untried_moves ≠ []
      · simp only [iterateOnce, if_neg h1, if_pos h2, expandStep]
        rw [bp_visits_of_shape hbp, setExpansion_visits]
      · simp only [iterateOnce, if_neg h1, if_neg h2, leafStep_fst, bp_visits_of_shape hbp]

lemma iterateOnce_move (rp : Nat) (bp : Option Nat → ℚ → MCTSNode → MCTSNode)
    (rand : Nat → Nat) (hbp : bpShape bp) :
    ∀ (fuel : Nat) (pp : Option Nat) (k : Nat) (n : MCTSNode),
      ((iterateOnce rp bp rand fuel pp k n).1).move = n.move := by
  intro fuel pp k n
  cases fuel with
  | zero =>
    show ((leafStep rp bp rand pp k n).1).move = n.move
    rw [leafStep_fst, bp_move_of_shape hbp]
  | succ fuel =>
    by_cases h1 : n.untried_moves = [] ∧ is_terminal n.state = false
    · by_cases h2 : n.children.isEmpty
      · simp only [iterateOnce, if_pos h1, if_pos h2, leafStep_fst, bp_move_of_shape hbp]
      · simp only [iterateOnce, if_pos h1, if_neg h2]
        rw [bp_move_of_shape hbp, setChildren_move]
    · by_cases h2 : is_terminal n.state = false ∧ n.untried_moves ≠ []
      · simp only [iterateOnce, if_neg h1, if_pos h2, expandStep]
        rw [bp_move_of_shape hbp, setExpansion_move]
      · simp only [iterateOnce, if_neg h1, if_neg h2, leafStep_fst, bp_move_of_shape hbp]

lemma iterateOnce_result_range (rp : Nat) (bp : Option Nat → ℚ → MCTSNode → MCTSNode)
    (rand : Nat → Nat) :
    ∀ (fuel : Nat) (pp : Option Nat) (k : Nat) (n : MCTSNode),
      0 ≤ (iterateOnce rp bp rand fuel pp k n).2.1 ∧
      (iterateOnce rp bp rand fuel pp k n).2.1 ≤ 1 := by
  intro fuel
  induction fuel with
  | zero =>
    intro pp k n
    exact simulate_range rand k n.state rp
  | succ fuel ih =>
    intro pp k n
    by_cases h1 : n.untried_moves = [] ∧ is_terminal n.state = false
    · by_cases h2 : n.children.isEmpty
      · simp only [iterateOnce, if_pos h1, if_pos h2, leafStep_result]
        exact simulate_range rand k n.state rp
      · simp only [iterateOnce, if_pos h1, if_neg h2]
        exact ih _ _ _
    · by_cases h2 : is_terminal n.state = false ∧ n.untried_moves ≠ []
      · simp only [iterateOnce, if_neg h1, if_pos h2, expandStep]
        exact simulate_range rand (k + 1) _ rp
      · simp only [iterateOnce, if_neg h1, if_neg h2, leafStep_result]
        exact simulate_range rand k n.state rp

lemma iterateOnce_TreeInv (rp : Nat) (bp : Option Nat → ℚ → MCTSNode → MCTSNode)
    (rand : Nat → Nat) (hbp : bpSound bp) :
    ∀ (fuel : Nat) (pp : Option Nat) (k : Nat) (n : MCTSNode),
      TreeInv n → TreeInv ((iterateOnce rp bp rand fuel pp k n).1) := by
  intro fuel
  induction fuel with
  | zero =>
    intro pp k n hn
    show TreeInv ((leafStep rp bp rand pp k n).1)
    rw [leafStep_fst]
    exact bp_TreeInv hbp (simulate_range rand k n.state rp).1
      (simulate_range rand k n.state rp).2 hn
  | succ fuel ih =>
    intro pp k n hn
    by_cases h1 : n.untried_moves = [] ∧ is_terminal n.state = false
    · by_cases h2 : n.children.isEmpty
      · simp only [iterateOnce, if_pos h1, if_pos h2, leafStep_fst]
        exact bp_TreeInv hbp (simulate_range rand k n.state rp).1
          (simulate_range rand k n.state rp).2 hn
      · simp only [iterateOnce, if_pos h1, if_neg h2]
        have hne : n.children ≠ [] := fun h => h2 (by rw [h]; rfl)
        have hilt : (select_child_idx n.visits n.children (rand k)).1 < n.children.length :=
          select_child_idx_lt hne
        have hcmem := getD_mem hilt
        have hrange := iterateOnce_result_range rp bp rand fuel
          (some n.state.current_player) (k + 1)
          (n.children.getD (select_child_idx n.visits n.children (rand k)).1 defaultNode)
        refine bp_TreeInv hbp hrange.1 hrange.2 (TreeInv_setChildren hn ?_)
        intro c2 hc2
        rcases List.mem_or_eq_of_mem_set hc2 with h | h
        · exact TreeInv_children hn c2 h
        · subst h
          exact ih _ _ _ (TreeInv_children hn _ hcmem)
    · by_cases h2 : is_terminal n.state = false ∧ n.untried_moves ≠ []
      · simp only [iterateOnce, if_neg h1, if_pos h2, expandStep]
        have hsim := simulate_range rand (k + 1)
          (make_move n.state
            (n.untried_moves.getD (rand k % n.untried_moves.length) 0)).2 rp
        refine bp_TreeInv hbp hsim.1 hsim.2 (TreeInv_setExpansion hn ?_)
        intro c2 hc2
        rcases List.mem_append.mp hc2 with h | h
        · exact TreeInv_children hn c2 h
        · rw [List.mem_singleton] at h
          subst h
          exact bp_TreeInv hbp hsim.1 hsim.2 (TreeInv_mkNode _ _)
      · simp only [iterateOnce, if_neg h1, if_neg h2, leafStep_fst]
        exact bp_TreeInv hbp (simulate_range rand k n.state rp).1
          (simulate_range rand k n.state rp).2 hn

lemma bp_VisitOrder {bp} (hbp : bpShape bp) {pp : Option Nat} {r : ℚ} {n : MCTSNode}
    (hn : VisitOrder n) : VisitOrder (bp pp r n) := by
  obtain ⟨x, hx⟩ := hbp pp r n
  rw [hx]
  exact VisitOrder_update x hn

lemma bp_VisitOrder_setChildren {bp} (hbp : bpShape bp) {pp : Option Nat} {r : ℚ}
    {n : MCTSNode} {cs2 : List MCTSNode}
    (hb : ∀ c ∈ cs2, c.visits ≤ n.visits + 1) (hv : ∀ c ∈ cs2, VisitOrder c) :
    VisitOrder (bp pp r (setChildren n cs2)) := by
  obtain ⟨x, hx⟩ := hbp pp r (setChildren n cs2)
  rw [hx]
  exact VisitOrder_build x hb hv

lemma bp_VisitOrder_setExpansion {bp} (hbp : bpShape bp) {pp : Option Nat} {r : ℚ}
    {n : MCTSNode} {u2 : List Nat} {cs2 : List MCTSNode}
    (hb : ∀ c ∈ cs2, c.visits ≤ n.visits + 1) (hv : ∀ c ∈ cs2, VisitOrder c) :
    VisitOrder (bp pp r (setExpansion n u2 cs2)) := by
  obtain ⟨x, hx⟩ := hbp pp r (setExpansion n u2 cs2)
  rw [hx]
  exact VisitOrder_build_exp x hb hv

lemma iterateOnce_VisitOrder (rp : Nat) (bp : Option Nat → ℚ → MCTSNode → MCTSNode)
    (rand : Nat → Nat) (hbp : bpShape bp) :
    ∀ (fuel : Nat) (pp : Option Nat) (k : Nat) (n : MCTSNode),
      VisitOrder n → VisitOrder ((iterateOnce rp bp rand fuel pp k n).1) := by
  intro fuel
  induction fuel with
  | zero =>
    intro pp k n hn
    show VisitOrder ((leafStep rp bp rand pp k n).1)
    rw [leafStep_fst]
    exact bp_VisitOrder hbp hn
  | succ fuel ih =>
    intro pp k n hn
    by_cases h1 : n.untried_moves = [] ∧ is_terminal n.state = false
    · by_cases h2 : n.children.isEmpty
      · simp only [iterateOnce, if_pos h1, if_pos h2, leafStep_fst]
        exact bp_VisitOrder hbp hn
      · simp only [iterateOnce, if_pos h1, if_neg h2]
        have hne : n.children ≠ [] := fun h => h2 (by rw [h]; rfl)
        have hilt : (select_child_idx n.visits n.children (rand k)).1 < n.children.length :=
          select_child_idx_lt hne
        have hcmem := getD_mem hilt
        refine bp_VisitOrder_setChildren hbp ?_ ?_
        · intro c2 hc2
          rcases List.mem_or_eq_of_mem_set hc2 with h | h
          · exact le_trans (VisitOrder_bound hn c2 h) (Nat.le_succ _)
          · subst h
            rw [iterateOnce_visits rp bp rand hbp]
            exact Nat.succ_le_succ (VisitOrder_bound hn _ hcmem)
        · intro c2 hc2
          rcases List.mem_or_eq_of_mem_set hc2 with h | h
          · exact VisitOrder_children hn c2 h
          · subst h
            exact ih _ _ _ (VisitOrder_children hn _ hcmem)
    · by_cases h2 : is_terminal n.state = false ∧ n.untried_moves ≠ []
      · simp only [iterateOnce, if_neg h1, if_pos h2, expandStep]
        refine bp_VisitOrder_setExpansion hbp ?_ ?_
        · intro c2 hc2
          rcases List.mem_append.mp hc2 with h | h
          · exact le_trans (VisitOrder_bound hn c2 h) (Nat.le_succ _)
          · rw [List.mem_singleton] at h
            subst h
            rw [bp_visits_of_shape hbp, mkNode_visits]
            omega
        · intro c2 hc2
          rcases List.mem_append.mp hc2 with h | h
          · exact VisitOrder_children hn c2 h
          · rw [List.mem_singleton] at h
            subst h
            exact bp_VisitOrder hbp (VisitOrder_mkNode _ _)
      · simp only [iterateOnce, if_neg h1, if_neg h2, leafStep_fst]
        exact bp_VisitOrder hbp hn

lemma iterateOnce_ChildMovesSome (rp : Nat) (bp : Option Nat → ℚ → MCTSNode → MCTSNode)
    (rand : Nat → Nat) (hbp : bpShape bp) :
    ∀ (fuel : Nat) (pp : Option Nat) (k : Nat) (n : MCTSNode),
      ChildMovesSome n → ChildMovesSome ((iterateOnce rp bp rand fuel pp k n).1) := by
  intro fuel pp k n hn
  cases fuel with
  | zero =>
    intro c hc
    rw [show (iterateOnce rp bp rand 0 pp k n).1 =
      bp pp (simulate_random_playout rand k n.state rp).1 n from rfl,
      bp_children_of_shape hbp] at hc
    exact hn c hc
  | succ fuel =>
    by_cases h1 : n.untried_moves = [] ∧ is_terminal n.state = false
    · by_cases h2 : n.children.isEmpty
      · intro c hc
        simp only [iterateOnce, if_pos h1, if_pos h2, leafStep_fst,
          bp_children_of_shape hbp] at hc
        exact hn c hc
      · intro c hc
        simp only [iterateOnce, if_pos h1, if_neg h2, bp_children_of_shape hbp,
          setChildren_children] at hc
        have hne : n.children ≠ [] := fun h => h2 (by rw [h]; rfl)
        have hilt : (select_child_idx n.visits n.children (rand k)).1 < n.children.length :=
          select_child_idx_lt hne
        rcases List.mem_or_eq_of_mem_set hc with h | h
        · exact hn c h
        · subst h
          rw [iterateOnce_move rp bp rand hbp]
          exact hn _ (getD_mem hilt)
    · by_cases h2 : is_terminal n.state = false ∧ n.untried_moves ≠ []
      · intro c hc
        simp only [iterateOnce, if_neg h1, if_pos h2, expandStep,
          bp_children_of_shape hbp, setExpansion_children] at hc
        rcases List.mem_append.mp hc with h | h
        · exact hn c h
        · rw [List.mem_singleton] at h
          subst h
          rw [bp_move_of_shape hbp, mkNode_move]
          rfl
      · intro c hc
        simp only [iterateOnce, if_neg h1, if_neg h2, leafStep_fst,
          bp_children_of_shape hbp] at hc
        exact hn c hc

/-! ## Whole-loop lemmas -/

lemma runIters_visits (rp : Nat) (bp : Option Nat → ℚ → MCTSNode → MCTSNode)
    (rand : Nat → Nat) (fuel : Nat) (hbp : bpShape bp) :
    ∀ (steps k : Nat) (n : MCTSNode),
      (runIters rp bp rand fuel steps k n).visits = n.visits + steps := by
  intro steps
  induction steps with
  | zero => intro k n; simp [runIters]
  | succ steps ih =>
    intro k n
    simp only [runIters]
    rw [ih, iterateOnce_visits rp bp rand hbp]
    omega

lemma runIters_TreeInv (rp : Nat) (bp : Option Nat → ℚ → MCTSNode → MCTSNode)
    (rand : Nat → Nat) (fuel : Nat) (hbp : bpSound bp) :
    ∀ (steps k : Nat) (n : MCTSNode),
      TreeInv n → TreeInv (runIters rp bp rand fuel steps k n) := by
  intro steps
  induction steps with
  | zero => intro k n hn; simpa [runIters] using hn
  | succ steps ih =>
    intro k n hn
    simp only [runIters]
    exact ih _ _ (iterateOnce_TreeInv rp bp rand hbp fuel none k n hn)

lemma runIters_VisitOrder (rp : Nat) (bp : Option Nat → ℚ → MCTSNode → MCTSNode)
    (rand : Nat → Nat) (fuel : Nat) (hshape : bpShape bp) :
    ∀ (steps k : Nat) (n : MCTSNode),
      VisitOrder n → VisitOrder (runIters rp bp rand fuel steps k n) := by
  intro steps
  induction steps with
  | zero => intro k n hn; simpa [runIters] using hn
  | succ steps ih =>
    intro k n hn
    simp only [runIters]
    exact ih _ _ (iterateOnce_VisitOrder rp bp rand hshape fuel none k n hn)

lemma runIters_ChildMovesSome (rp : Nat) (bp : Option Nat → ℚ → MCTSNode → MCTSNode)
    (rand : Nat → Nat) (fuel : Nat) (hshape : bpShape bp) :
    ∀ (steps k : Nat) (n : MCTSNode),
      ChildMovesSome n → ChildMovesSome (runIters rp bp rand fuel steps k n) := by
  intro steps
  induction steps with
  | zero => intro k n hn; simpa [runIters] using hn
  | succ steps ih =>
    intro k n hn
    simp only [runIters]
    exact ih _ _ (iterateOnce_ChildMovesSome rp bp rand hshape fuel none k n hn)



/-! ## Claim C3 -/

/-- C3: for every non-terminal root state and every iteration count
`N ≥ 1`, after `mcts_search` runs its `N` iterations the root node's
visit count equals exactly `N` — each iteration backpropagates through
the root exactly once. -/
theorem C3_root_visit_count (s : Connect4State) (N : Nat) (ec : ℚ) (rand : Nat → Nat)
    (fuel : Nat) (_hterm : is_terminal s = false) (_hN : 1 ≤ N) :
    (searchTreeA s N ec rand fuel).visits = N := by
  rw [searchTreeA, runIters_visits _ _ _ _ (bpA_shape _), mkNode_visits]
  omega

/-- Witness for C3 on the initial state with one iteration. -/
theorem C3_witness :
    is_terminal initialState = false ∧ 1 ≤ 1 ∧
    (searchTreeA initialState 1 (1414 / 1000) (fun _ => 0) 42).visits = 1 :=
  ⟨by decide, le_refl 1,
    C3_root_visit_count initialState 1 (1414 / 1000) (fun _ => 0) 42 (by decide) (le_refl 1)⟩

/-! ## Claim C2 -/

/-- C2: after all iterations `mcts_search` returns the move of a root
child with maximal visit count among all root children (robust child,
via `best_child` with exploration weight `0`), and it returns an absent
move exactly when the root has no children. -/
theorem C2_robust_child (s : Connect4State) (N : Nat) (ec : ℚ) (rand : Nat → Nat)
    (fuel : Nat) (hterm : is_terminal s = false) :
    (mcts_search s N ec rand fuel = none ↔ (searchTreeA s N ec rand fuel).children = []) ∧
    (∀ c : MCTSNode, best_child (searchTreeA s N ec rand fuel) 0 0 = some c →
      c ∈ (searchTreeA s N ec rand fuel).children ∧
      (∀ d ∈ (searchTreeA s N ec rand fuel).children, d.visits ≤ c.visits) ∧
      mcts_search s N ec rand fuel = c.move) := by
  have hms : ChildMovesSome (searchTreeA s N ec rand fuel) := by
    rw [searchTreeA]
    refine runIters_ChildMovesSome _ _ _ _ (bpA_shape _) N 0 _ ?_
    intro c hc
    rw [mkNode_children] at hc
    exact absurd hc (List.not_mem_nil c)
  have hsearch : mcts_search s N ec rand fuel =
      (match best_child (searchTreeA s N ec rand fuel) 0 0 with
       | none => none
       | some c => c.move) := by
    rw [mcts_search, if_neg (by simp [hterm])]
  constructor
  · cases hcs : (searchTreeA s N ec rand fuel).children with
    | nil =>
      have hbc : best_child (searchTreeA s N ec rand fuel) 0 0 = none := by
        rw [best_child, if_pos (by simp [hcs])]
      rw [hsearch, hbc]
      simp [hcs]
    | cons c rest =>
      obtain ⟨m, hm⟩ := maxByVisits_isSome c rest
      have hm2 : maxByVisits (searchTreeA s N ec rand fuel).children = some m := by
        rw [hcs]; exact hm
      have hspec := maxByVisits_spec hm2
      have hsome : m.move.isSome = true := hms m hspec.1
      have hbc : best_child (searchTreeA s N ec rand fuel) 0 0 = some m := by
        rw [best_child, if_neg (by simp [hcs]), if_pos rfl, hm2]
      rw [hsearch, hbc]
      refine iff_of_false ?_ (by simp [hcs])
      intro hnone
      have hmn : m.move = none := hnone
      rw [hmn] at hsome
      exact absurd hsome (by simp)
  · intro c2 hc2
    by_cases hne : (searchTreeA s N ec rand fuel).children.isEmpty = true
    · rw [best_child, if_pos hne] at hc2
      exact absurd hc2 (by simp)
    · rw [best_child, if_neg hne, if_pos rfl] at hc2
      have hspec := maxByVisits_spec hc2
      refine ⟨hspec.1, hspec.2, ?_⟩
      rw [hsearch, best_child, if_neg hne, if_pos rfl, hc2]

/-- Witness for C2 on the initial state with zero iterations (the
childless-root branch of the claim). -/
theorem C2_witness :
    is_terminal initialState = false ∧
    ((mcts_search initialState 0 (1414 / 1000) (fun _ => 0) 42 = none ↔
      (searchTreeA initialState 0 (1414 / 1000) (fun _ => 0) 42).children = []) ∧
    (∀ c : MCTSNode,
      best_child (searchTreeA initialState 0 (1414 / 1000) (fun _ => 0) 42) 0 0 = some c →
      c ∈ (searchTreeA initialState 0 (1414 / 1000) (fun _ => 0) 42).children ∧
      (∀ d ∈ (searchTreeA initialState 0 (1414 / 1000) (fun _ => 0) 42).children,
        d.visits ≤ c.visits) ∧
      mcts_search initialState 0 (1414 / 1000) (fun _ => 0) 42 = c.move)) :=
  ⟨by decide, C2_robust_child initialState 0 (1414 / 1000) (fun _ => 0) 42 (by decide)⟩

/-! ## Claim C4 -/

/-- C4: whenever UCB1 child selection runs on a node whose children
obey the parent-child visit bound — which `searchTreeA` maintains at
every node throughout a search (`VisitOrder`) — the zero-visit check
short-circuits the formula: every `(parent_visits, child_visits)`
operand pair at which the `log`/division formula is evaluated is
nonzero in both components, and if some child has zero visits then the
child returned is one with zero visits (so its formula is never
computed). -/
theorem C4_uct_zero_priority :
    (∀ (pv : Nat) (cs : List MCTSNode) (pick : Nat),
      (∀ c ∈ cs, c.visits ≤ pv) →
      (∀ e ∈ (select_child_idx pv cs pick).2, e.1 ≠ 0 ∧ e.2 ≠ 0) ∧
      ((∃ c ∈ cs, c.visits = 0) →
        (cs.getD (select_child_idx pv cs pick).1 defaultNode).visits = 0)) ∧
    (∀ (s : Connect4State) (N : Nat) (ec : ℚ) (rand : Nat → Nat) (fuel : Nat),
      VisitOrder (searchTreeA s N ec rand fuel)) := by
  constructor
  · intro pv cs pick hle
    exact ⟨select_child_idx_trace hle, fun hex => select_child_idx_zero hex⟩
  · intro s N ec rand fuel
    rw [searchTreeA]
    exact runIters_VisitOrder _ _ _ _ (bpA_shape _) N 0 _ (VisitOrder_mkNode s none)

/-- Witness for C4 on a one-child list whose only child is unvisited. -/
theorem C4_witness :
    (∀ e ∈ (select_child_idx 1 [defaultNode] 0).2, e.1 ≠ 0 ∧ e.2 ≠ 0) ∧
    ((∃ c ∈ [defaultNode], c.visits = 0) →
      ([defaultNode].getD (select_child_idx 1 [defaultNode] 0).1 defaultNode).visits = 0) :=
  C4_uct_zero_priority.1 1 [defaultNode] 0 (by decide)

/-! ## Claim C5 -/

/-- C5: rollout rewards always lie in `[0, 1]`; every backpropagation
update increments the visit count by exactly 1 and preserves the
per-node statistics invariant when its added reward lies in `[0, 1]`;
consequently every node of the tree built by a search satisfies
`0 ≤ wins ≤ visits` and `visits = 0 → wins = 0` after every iteration. -/
theorem C5_statistics_invariant :
    (∀ (rand : Nat → Nat) (k : Nat) (s : Connect4State) (p : Nat),
      0 ≤ (simulate_random_playout rand k s p).1 ∧
      (simulate_random_playout rand k s p).1 ≤ 1) ∧
    (∀ (rp : Nat) (pp : Option Nat) (r : ℚ) (n : MCTSNode), 0 ≤ r → r ≤ 1 →
      (bpA rp pp r n).visits = n.visits + 1 ∧ (TreeInv n → TreeInv (bpA rp pp r n))) ∧
    (∀ (s : Connect4State) (N : Nat) (ec : ℚ) (rand : Nat → Nat) (fuel : Nat),
      TreeInv (searchTreeA s N ec rand fuel)) := by
  refine ⟨fun rand k s p => simulate_range rand k s p, ?_, ?_⟩
  · intro rp pp r n h0 h1
    exact ⟨bpA_visits rp pp r n, fun hn => bp_TreeInv (bpA_sound rp) h0 h1 hn⟩
  · intro s N ec rand fuel
    rw [searchTreeA]
    exact runIters_TreeInv _ _ _ _ (bpA_sound _) N 0 _ (TreeInv_mkNode s none)

/-- Witness for C5: a concrete update with reward `1/2`. -/
theorem C5_witness :
    (bpA PLAYER1 none (1 / 2) defaultNode).visits = defaultNode.visits + 1 ∧
    (TreeInv defaultNode → TreeInv (bpA PLAYER1 none (1 / 2) defaultNode)) :=
  C5_statistics_invariant.2.1 PLAYER1 none (1 / 2) defaultNode (by norm_num) (by norm_num)


end Connect4
